import Mathlib

/-!
Verification development for the StockAnalyser backend.

Each Python component relevant to the checked properties is shallowly
embedded as an executable Lean definition: monetary values are rationals,
dates are integer day ordinals (with Monday-epoch so that `d % 7` is the
Python `date.weekday()`), machine time is a rational, and fallible code
returns `Option`/`Except`.  Django ORM tables are lists of rows; a
transaction is embedded as an all-or-nothing state update.
-/

namespace StockAnalyser

/-- Rounding of a rational to the nearest integer with ties to even,
the semantics of Python's builtin `round` used throughout
`performance_calculator.py` and `views.py`. -/
def roundHalfEven (x : ℚ) : ℤ :=
  let n := ⌊x⌋
  let r := x - n
  if r < 1/2 then n
  else if 1/2 < r then n + 1
  else if n % 2 = 0 then n else n + 1

/-- Python `round(x, 2)`: round to two decimal places, ties to even. -/
def round2 (x : ℚ) : ℚ := (roundHalfEven (100 * x) : ℚ) / 100

/-- One weekly or daily price bar as persisted by the `StockPrice` /
`DailyStockPrice` Django models (`stocks/models.py`): OHLC decimals,
a date and a volume.  The two models have identical shapes and are
embedded by this single structure. -/
structure StockPrice where
  date : ℤ
  open_price : ℚ
  high_price : ℚ
  low_price : ℚ
  close_price : ℚ
  volume : ℤ
deriving DecidableEq, Repr

/-- An `Stock` / `DailyStock` row together with its child price bars
(the reverse foreign-key `stock.prices`). -/
structure Stock where
  symbol : String
  name : String
  prices : List StockPrice
deriving DecidableEq, Repr

/-! ## Fast fetcher: retriable-error classification (`fetch_stocks_fast.py`) -/

/-- Substring test on character lists: `needle` occurs inside `hay`.
Embeds the Python `in` operator on strings. -/
def charsHasSub (hay needle : List Char) : Bool :=
  match hay with
  | [] => needle.isEmpty
  | c :: t => needle.isPrefixOf (c :: t) || charsHasSub t needle

/-- Python `needle in hay` for strings. -/
def strIn (needle hay : String) : Bool := charsHasSub hay.toList needle.toList

/-- The literal list `Command.RETRIABLE_ERRORS` of
`fetch_stocks_fast.py` (lines 141-149). -/
def RETRIABLE_ERRORS : List String :=
  ["rate limit", "Rate limit", "Information", "timed out", "timeout",
   "ConnectionError", "ConnectionPool"]

/-- Embedding of `Command.is_retriable_error` (`fetch_stocks_fast.py`
lines 151-155): a falsy error (absent or empty text) is not retriable,
otherwise the error is retriable iff its text contains one of the
literal markers. -/
def is_retriable_error (error : Option String) : Bool :=
  match error with
  | none => false
  | some e => if e = "" then false else RETRIABLE_ERRORS.any (fun err => strIn err e)

/-! ## Performance calculator: per-record arithmetic
(`performance_calculator.py`) -/

/-- One `StockPerformance` row (`stocks/models.py`). -/
structure StockPerformance where
  symbol : String
  name : String
  period : String
  start_price : ℚ
  end_price : ℚ
  price_change : ℚ
  percent_change : ℚ
  start_date : ℤ
  end_date : ℤ
  data_source : String
deriving DecidableEq, Repr

/-- Embedding of `PerformanceCalculator._create_performance_record`
(`performance_calculator.py` lines 155-178): skip when the start close
is exactly zero, otherwise build the record with all four price fields
rounded to two decimals. -/
def createPerformanceRecord (stock : Stock) (period_name : String)
    (startBar endBar : StockPrice) (source : String) : Option StockPerformance :=
  let start_val := startBar.close_price
  let end_val := endBar.close_price
  if start_val = 0 then none
  else
    let price_change := end_val - start_val
    let percent_change := price_change / start_val * 100
    some { symbol := stock.symbol
           name := stock.name
           period := period_name
           start_price := round2 start_val
           end_price := round2 end_val
           price_change := round2 price_change
           percent_change := round2 percent_change
           start_date := startBar.date
           end_date := endBar.date
           data_source := source }

/-! ## Performance calculator: full computation pass
(`performance_calculator.py`) -/

/-- Which price store a computation period reads
(`TIME_PERIODS[...]['source']`). -/
inductive PeriodSource where
  | daily
  | weekly
deriving DecidableEq, Repr

/-- Configuration of one `TIME_PERIODS` entry: the lookback in days, or
`none` for the YTD entry (`{'ytd': True}`). -/
structure PeriodConfig where
  days : Option ℤ
  source : PeriodSource
deriving DecidableEq, Repr

/-- The literal `PerformanceCalculator.TIME_PERIODS` table
(`performance_calculator.py` lines 21-29). -/
def TIME_PERIODS : List (String × PeriodConfig) :=
  [("1D", ⟨some 1, .daily⟩), ("1W", ⟨some 7, .daily⟩), ("1M", ⟨some 30, .weekly⟩),
   ("YTD", ⟨none, .weekly⟩), ("6M", ⟨some 180, .weekly⟩), ("1Y", ⟨some 365, .weekly⟩),
   ("5Y", ⟨some 1825, .weekly⟩)]

/-- Embedding of `PerformanceCalculator._get_start_date` (lines 65-68):
January 1 of the current year for YTD (supplied explicitly as `jan1`,
the calendar conversion from day ordinals being environmental),
otherwise `now - days`. -/
def getStartDate (now jan1 : ℤ) (config : PeriodConfig) : ℤ :=
  match config.days with
  | none => jan1
  | some d => now - d

/-- The query `filter(date__gte=start_date).order_by('date').first()`:
the earliest bar dated on or after `start`. -/
def earliestFrom (prices : List StockPrice) (start : ℤ) : Option StockPrice :=
  (prices.filter (fun p => start ≤ p.date)).foldl
    (fun acc p =>
      match acc with
      | none => some p
      | some q => if p.date < q.date then some p else some q) none

/-- The query `order_by('-date').first()`: the latest bar. -/
def latestBar (prices : List StockPrice) : Option StockPrice :=
  prices.foldl
    (fun acc p =>
      match acc with
      | none => some p
      | some q => if q.date < p.date then some p else some q) none

/-- The query `order_by('-date')[:2]`: the two most recent bars as
(latest, second-latest), or `none` when fewer than two exist. -/
def lastTwoBars (prices : List StockPrice) : Option (StockPrice × StockPrice) :=
  let acc := prices.foldl
    (fun acc p =>
      match acc with
      | (none, _) => (some p, none)
      | (some a, none) => if a.date < p.date then (some p, some a) else (some a, some p)
      | (some a, some b) =>
          if a.date < p.date then (some p, some a)
          else if b.date < p.date then (some a, some p)
          else (some a, some b))
    ((none : Option StockPrice), (none : Option StockPrice))
  match acc with
  | (some a, some b) => some (a, b)
  | _ => none

/-- Embedding of `PerformanceCalculator._calculate_stock_performance_daily`
(lines 109-138): for 1D the last two trading bars (skip when fewer
than two), otherwise the earliest bar on/after the start date and the
latest bar overall (skip when either is missing or both are the same
bar). -/
def calcStockPerformanceDaily (stock : Stock) (period_name : String)
    (start_date : ℤ) : Option StockPerformance :=
  if period_name = "1D" then
    match lastTwoBars stock.prices with
    | none => none
    | some (endBar, startBar) =>
        createPerformanceRecord stock period_name startBar endBar "daily"
  else
    match earliestFrom stock.prices start_date, latestBar stock.prices with
    | some s, some e =>
        if s = e then none else createPerformanceRecord stock period_name s e "daily"
    | _, _ => none

/-- Embedding of `PerformanceCalculator._calculate_stock_performance_weekly`
(lines 140-153). -/
def calcStockPerformanceWeekly (stock : Stock) (period_name : String)
    (start_date : ℤ) : Option StockPerformance :=
  match earliestFrom stock.prices start_date, latestBar stock.prices with
  | some s, some e =>
      if s = e then none else createPerformanceRecord stock period_name s e "weekly"
  | _, _ => none

/-- Embedding of `PerformanceCalculator._compute_daily_performance`
(lines 70-91): an empty daily store yields no records; otherwise the
daily stocks restricted to the tracked registry are computed. -/
def computeDailyPerformance (tracked : List String) (dailyStocks : List Stock)
    (period_name : String) (start_date : ℤ) : List StockPerformance :=
  if dailyStocks.isEmpty then []
  else (dailyStocks.filter (fun s => s.symbol ∈ tracked)).filterMap
    (fun s => calcStockPerformanceDaily s period_name start_date)

/-- Embedding of `PerformanceCalculator._compute_weekly_performance`
(lines 93-107). -/
def computeWeeklyPerformance (tracked : List String) (weeklyStocks : List Stock)
    (period_name : String) (start_date : ℤ) : List StockPerformance :=
  (weeklyStocks.filter (fun s => s.symbol ∈ tracked)).filterMap
    (fun s => calcStockPerformanceWeekly s period_name start_date)

/-- The persistent state seen by the performance calculator: the weekly
and daily stores' stocks (with their price bars) and the
`StockPerformance` table. -/
structure PerfDB where
  weeklyStocks : List Stock
  dailyStocks : List Stock
  performance : List StockPerformance
deriving Repr

/-- The body of `compute_all`'s loop over `TIME_PERIODS` (lines 43-53):
compute one period's records from its configured source store.
`tracked` embeds the keys of the static `all_fortune_500` registry —
modelled from the spec: the registry module itself is not part of the
repository snapshot; the spec describes it as a fixed symbol-to-name
mapping whose key set is the tracked universe. -/
def periodPass (tracked : List String) (today jan1 : ℤ) (db : PerfDB)
    (pc : String × PeriodConfig) : List StockPerformance :=
  let start_date := getStartDate today jan1 pc.2
  match pc.2.source with
  | .daily => computeDailyPerformance tracked db.dailyStocks pc.1 start_date
  | .weekly => computeWeeklyPerformance tracked db.weeklyStocks pc.1 start_date

/-- The list `performances_to_create` assembled by
`PerformanceCalculator.compute_all` (lines 40-53): the concatenation
of every period's records. -/
def computedPerformances (tracked : List String) (today jan1 : ℤ)
    (db : PerfDB) : List StockPerformance :=
  TIME_PERIODS.flatMap (periodPass tracked today jan1 db)

/-- Example database for exercising the calculator: one tracked weekly
stock with two bars, an empty daily store, and one stale performance
row from a prior computation. -/
def perfDBEx : PerfDB :=
  { weeklyStocks := [⟨"AAPL", "Apple", [⟨0, 1, 1, 1, 100, 5⟩, ⟨9, 1, 1, 1, 110, 5⟩]⟩]
    dailyStocks := []
    performance := [⟨"OLD", "Old", "1D", 1, 1, 1, 1, 0, 0, "daily"⟩] }

/-- Embedding of `compute_all`'s transactional replacement (lines
55-61): inside one transaction, delete every `StockPerformance` row
and bulk-insert the computed set.  `txOk` is the storage engine's
verdict on the transaction body: a failure rolls the whole transaction
back, leaving the table untouched. -/
def computeAll (tracked : List String) (today jan1 : ℤ) (db : PerfDB)
    (txOk : Bool) : PerfDB :=
  if txOk then { db with performance := computedPerformances tracked today jan1 db }
  else db

/-! ## Vendor bar parsing: adjustment ratio
(`fetch_weekly_stocks.py`, `fetch_daily_stocks.py`, `fetch_stocks_fast.py`) -/

/-- One bar of a vendor time-series response: the raw values keyed
`1. open` .. `4. close`, the optional `5. adjusted close`, and the
volume under key `6. volume` (adjusted series) or `5. volume`
(non-adjusted weekly series). -/
structure VendorBar where
  open_price : ℚ
  high_price : ℚ
  low_price : ℚ
  raw_close : ℚ
  adjusted_close : Option ℚ
  volume6 : Option ℤ
  volume5 : Option ℤ
deriving DecidableEq, Repr

/-- Embedding of the per-date body of the legacy weekly fetcher
(`fetch_weekly_stocks.py` lines 102-124): volume is
`values.get('6. volume') or values.get('5. volume')`, the stored close
is `values.get('5. adjusted close') or values.get('4. close')`, and
open/high/low are stored as the raw vendor values — no adjustment
ratio is computed on this path.  `none` models the per-symbol
exception raised when no volume key is present. -/
def weeklyFetchParseBar (date : ℤ) (b : VendorBar) : Option StockPrice :=
  let volume := match b.volume6 with
                | some v => some v
                | none => b.volume5
  let close_price := b.adjusted_close.getD b.raw_close
  match volume with
  | none => none
  | some v =>
      some { date := date
             open_price := b.open_price
             high_price := b.high_price
             low_price := b.low_price
             close_price := close_price
             volume := v }

/-- Embedding of the per-date body of the legacy daily fetcher
(`fetch_daily_stocks.py` lines 101-121): the adjustment ratio
`adjusted_close / raw_close` (1 when the raw close is 0) scales
open/high/low, the adjusted close is stored as the close, and volume
is the mandatory `values['6. volume']` (`none` models the KeyError
raised when it is absent). -/
def dailyFetchParseBar (date : ℤ) (b : VendorBar) : Option StockPrice :=
  match b.volume6 with
  | none => none
  | some v =>
      let raw_close := b.raw_close
      let adjusted_close := b.adjusted_close.getD raw_close
      let adj_ratio := if raw_close ≠ 0 then adjusted_close / raw_close else 1
      some { date := date
             open_price := b.open_price * adj_ratio
             high_price := b.high_price * adj_ratio
             low_price := b.low_price * adj_ratio
             close_price := adjusted_close
             volume := v }

/-- Embedding of the per-date parsing shared by `Command.fetch_weekly`
(lines 383-402) and `Command.fetch_daily` (lines 450-466) of
`fetch_stocks_fast.py`: identical ratio logic to the legacy daily
fetcher, with volume falling back from `6. volume` to `5. volume`
(`none` models the database error raised on a missing volume). -/
def fastAdjustedParseBar (date : ℤ) (b : VendorBar) : Option StockPrice :=
  let volume := match b.volume6 with
                | some v => some v
                | none => b.volume5
  match volume with
  | none => none
  | some v =>
      let raw_close := b.raw_close
      let adjusted_close := b.adjusted_close.getD raw_close
      let adj_ratio := if raw_close ≠ 0 then adjusted_close / raw_close else 1
      some { date := date
             open_price := b.open_price * adj_ratio
             high_price := b.high_price * adj_ratio
             low_price := b.low_price * adj_ratio
             close_price := adjusted_close
             volume := v }

/-! ## Daily fetcher: 90-day retention (`fetch_daily_stocks.py`) -/

/-- Embedding of the storage loop of the legacy daily fetcher
(`fetch_daily_stocks.py` lines 98-126).  Line 99 computes
`ninety_days_ago = datetime.now().date() - timedelta(days=90)` (the
`let` below), but the loop body never consults it: every date of the
vendor response is parsed and upserted. -/
def dailyFetchStoredBars (today : ℤ) (response : List (ℤ × VendorBar)) :
    List StockPrice :=
  let _ninety_days_ago := today - 90
  response.filterMap (fun p => dailyFetchParseBar p.1 p.2)

/-! ## Weekly fetchers: freshness gate
(`fetch_weekly_stocks.py`, `fetch_stocks_fast.py`) -/

/-- Outcome of the freshness check performed before any vendor call. -/
inductive FetchAction where
  | skip
  | callVendor
deriving DecidableEq, Repr

/-- Embedding of the freshness gate of the legacy weekly fetcher
(`fetch_weekly_stocks.py` lines 63-72) and of the fast fetcher's
`Command.fetch_weekly` (`fetch_stocks_fast.py` lines 352-355); both
sites test the identical condition: skip when the instrument
pre-existed, `force` is unset and it was updated less than one hour
(3600 s) ago. -/
def weeklyFreshnessGate (force created : Bool) (elapsedSeconds : ℚ) : FetchAction :=
  if !force && !created && elapsedSeconds < 3600 then .skip else .callVendor

/-- Result of processing one symbol in a weekly fetch: whether the
vendor endpoint was contacted, and the symbol's stored price rows
afterwards. -/
structure WeeklyFetchOutcome where
  vendorCalled : Bool
  prices : List StockPrice
deriving DecidableEq, Repr

/-- Per-symbol step of a weekly fetch: the skip branch performs no
vendor call and leaves the stored rows untouched; the fetch branch
contacts the vendor and replaces/upserts the rows with the fetched
set (abstracted as `fetched`). -/
def weeklyProcessSymbol (force created : Bool) (elapsedSeconds : ℚ)
    (storedPrices fetched : List StockPrice) : WeeklyFetchOutcome :=
  match weeklyFreshnessGate force created elapsedSeconds with
  | .skip => { vendorCalled := false, prices := storedPrices }
  | .callVendor => { vendorCalled := true, prices := fetched }

/-! ## Rate limiter (`fetch_stocks_fast.py` `RateLimiter`) -/

/-- State of the fast fetcher's `RateLimiter` (`fetch_stocks_fast.py`
lines 20-31): the two timestamp deques, `request_times` for the
per-minute window and `second_requests` for the per-second window.
Machine time is embedded as a rational. -/
structure RateLimiterState where
  request_times : List ℚ
  second_requests : List ℚ
deriving DecidableEq, Repr

/-- A freshly constructed limiter: both queues empty. -/
def rateLimiterInit : RateLimiterState := ⟨[], []⟩

/-- One admission check of `RateLimiter.acquire` (`fetch_stocks_fast.py`
lines 33-54) performed at time `now` while holding the lock: pop
entries older than 60 s (resp. 1 s) from the front of each queue, then
admit — appending `now` to both queues — iff both pruned queue lengths
are below their limits.  The Boolean result is `true` on admission;
`false` models one more 100 ms polling round of the enclosing `while`
loop. -/
def acquireStep (qpm qps : ℕ) (st : RateLimiterState) (now : ℚ) :
    RateLimiterState × Bool :=
  let q60 := st.request_times.dropWhile (fun t => t < now - 60)
  let q1 := st.second_requests.dropWhile (fun t => t < now - 1)
  if q60.length < qpm ∧ q1.length < qps then
    (⟨q60 ++ [now], q1 ++ [now]⟩, true)
  else
    (⟨q60, q1⟩, false)

/-- The timestamps admitted over a serialized sequence of admission
checks.  The limiter's mutex serializes all concurrent callers'
checks, so any execution is some non-decreasing list `polls` of check
times; an admitted check records its time, a denied one retries
later (appearing again later in `polls`). -/
def runAdmitted (qpm qps : ℕ) (st : RateLimiterState) : List ℚ → List ℚ
  | [] => []
  | now :: rest =>
      let step := acquireStep qpm qps st now
      (if step.2 then [now] else []) ++ runAdmitted qpm qps step.1 rest

/-- Number of timestamps of `l` lying in the closed window `[a, b]`. -/
def windowCount (l : List ℚ) (a b : ℚ) : ℕ :=
  (l.filter fun t => a ≤ t ∧ t ≤ b).length

/-- Invariant tying the limiter state to the history `A` of admitted
timestamps after all checks up to time `M`: each queue is a suffix of
`A` whose dropped prefix is strictly older than the respective window,
every admitted time is at most `M`, and every rolling window already
satisfies its bound. -/
def LimiterInv (qpm qps : ℕ) (M : ℚ) (A : List ℚ) (st : RateLimiterState) : Prop :=
  (∃ d, A = d ++ st.request_times ∧ ∀ x ∈ d, x < M - 60)
  ∧ (∃ d, A = d ++ st.second_requests ∧ ∀ x ∈ d, x < M - 1)
  ∧ (∀ x ∈ A, x ≤ M)
  ∧ (∀ t, windowCount A t (t + 60) ≤ qpm)
  ∧ (∀ t, windowCount A t (t + 1) ≤ qps)

/-! ## Authentication endpoint (`stock_backend/views.py` `social_login`) -/

/-- The provider profile as normalized by `verify_google_token` /
`verify_microsoft_token`: optional subject id (`sub` for Google, the
normalized Microsoft shape also uses `sub`; a raw `id` key is the
fallback probed by `social_login`), email, display and given/family
names.  Absent keys are `none`. -/
structure OAuthProfile where
  sub : Option String
  id : Option String
  email : Option String
  name : Option String
  given_name : Option String
  family_name : Option String
deriving DecidableEq, Repr

/-- A local Django auth `User` row as touched by `social_login`. -/
structure UserRec where
  id : ℕ
  username : String
  email : String
  first_name : String
  last_name : String
  hasUsablePassword : Bool
deriving DecidableEq, Repr

/-- An allauth `SocialAccount` row: unique (user, provider) link with
the provider subject id and the raw profile payload. -/
structure SocialAccountRec where
  userId : ℕ
  provider : String
  uid : Option String
  extra_data : OAuthProfile
deriving DecidableEq, Repr

/-- The identity store: users, social-account links, and the next
auto-increment user id. -/
structure AuthDB where
  users : List UserRec
  accounts : List SocialAccountRec
  nextUserId : ℕ
deriving Repr

/-- A signed access/refresh pair issued for one user
(`get_tokens_for_user`, lines 16-22).  The JWT signing itself belongs
to the token library; the pair is embedded opaquely by the user it was
issued for. -/
structure TokenPair where
  forUserId : ℕ
deriving DecidableEq, Repr

/-- Embedding of `get_tokens_for_user` (lines 16-22). -/
def get_tokens_for_user (u : UserRec) : TokenPair := ⟨u.id⟩

/-- The success payload of `social_login` (lines 147-154): the token
pair and the minimal user object. -/
structure LoginResponse where
  tokens : TokenPair
  userId : ℕ
  userEmail : String
  userName : String
deriving DecidableEq, Repr

/-- The response body built at lines 147-154: name is
`f"{first} {last}".strip() or email`. -/
def mkLoginResponse (user : UserRec) : LoginResponse :=
  { tokens := get_tokens_for_user user
    userId := user.id
    userEmail := user.email
    userName :=
      let nm := (user.first_name ++ " " ++ user.last_name).trim
      if nm = "" then user.email else nm }

/-- The `SocialAccount.objects.update_or_create(user=..., provider=...)`
plus token issuance tail of `social_login` (lines 136-154).  The uid
is `user_info.get('sub') or user_info.get('id')`; two existing links
for the unique pair raise `MultipleObjectsReturned` (500). -/
def finishLogin (db : AuthDB) (user : UserRec) (provider : String)
    (info : OAuthProfile) : Except (ℕ × String) (AuthDB × LoginResponse) :=
  let uid := match info.sub with
             | some s => if s = "" then info.id else some s
             | none => info.id
  match db.accounts.filter (fun a => a.userId = user.id ∧ a.provider = provider) with
  | [] =>
      .ok ({ db with accounts := db.accounts
              ++ [⟨user.id, provider, uid, info⟩] }, mkLoginResponse user)
  | [_] =>
      .ok ({ db with accounts := db.accounts.map (fun b =>
              if b.userId = user.id ∧ b.provider = provider
              then { b with uid := uid, extra_data := info } else b) },
           mkLoginResponse user)
  | _ => .error (500, "MultipleObjectsReturned")

/-- Embedding of `social_login` (`stock_backend/views.py` lines
65-154).  `userInfo` is the provider verification outcome (`none` on
non-200 or network failure).  Errors carry the HTTP status and
message; a missing/empty token or invalid provider is 400, a failed
verification 401, a profile without email 400; an unexpected duplicate
user for the email raises `MultipleObjectsReturned` (500). -/
def social_login (db : AuthDB) (access_token : Option String) (provider : String)
    (userInfo : Option OAuthProfile) :
    Except (ℕ × String) (AuthDB × LoginResponse) :=
  if access_token.getD "" = "" then
    .error (400, "access_token is required")
  else if ¬(provider = "google" ∨ provider = "microsoft") then
    .error (400, "Invalid provider")
  else
    match userInfo with
    | none => .error (401, "Invalid or expired access token")
    | some info =>
      let email := info.email.getD ""
      if email = "" then
        .error (400, "Email not provided by OAuth provider")
      else
        match db.users.filter (fun u => u.email = email) with
        | [] =>
            let user : UserRec :=
              ⟨db.nextUserId, email, email, info.given_name.getD "",
               info.family_name.getD "", false⟩
            let db1 : AuthDB :=
              { users := db.users ++ [user]
                accounts := db.accounts
                nextUserId := db.nextUserId + 1 }
            finishLogin db1 user provider info
        | [u] => finishLogin db u provider info
        | _ => .error (500, "MultipleObjectsReturned")

/-! ## Summary endpoint (`views.py` `get_stock_summary`) -/

/-- One element of the `summary` list built by `get_stock_summary`
(`views.py` lines 258-266); the ambient `last_updated` timestamp
string is omitted. -/
structure SummaryEntry where
  symbol : String
  name : String
  latest_date : ℤ
  close_price : ℚ
  change : Option ℚ
  change_percent : Option ℚ
deriving DecidableEq, Repr

/-- Embedding of the per-stock loop body of `get_stock_summary`
(`views.py` lines 243-266).  `recentPrices` is the query result
`stock.prices.order_by('-date')[:2]` (newest first).  `.ok none`
models an empty query (no entry appended); `.error ()` models the
unhandled `ZeroDivisionError` raised by line 256 when a second bar
exists whose close is zero.  The `change`/`change_percent` fields are
`round(x, 2) if x else None`: the rounding is applied only when the
computed value is truthy (nonzero). -/
def summaryEntryFor (stock : Stock) (recentPrices : List StockPrice) :
    Except Unit (Option SummaryEntry) :=
  match recentPrices with
  | [] => .ok none
  | latest :: rest =>
    match rest with
    | [] => .ok (some { symbol := stock.symbol
                        name := stock.name
                        latest_date := latest.date
                        close_price := latest.close_price
                        change := none
                        change_percent := none })
    | previous :: _ =>
      if previous.close_price = 0 then .error ()
      else
        let change := latest.close_price - previous.close_price
        let change_percent := change / previous.close_price * 100
        .ok (some { symbol := stock.symbol
                    name := stock.name
                    latest_date := latest.date
                    close_price := latest.close_price
                    change := if change ≠ 0 then some (round2 change) else none
                    change_percent := if change_percent ≠ 0 then some (round2 change_percent) else none })

/-! ## Weekly chart endpoint (`views.py` `weekly_chart_data`) -/

/-- Monday-anchored week start: `price.date - timedelta(days=price.date.weekday())`
(`views.py` line 1025).  Dates are integer ordinals with a Monday
epoch, so `d % 7` is Python's `date.weekday()`. -/
def weekStart (d : ℤ) : ℤ := d - d % 7

/-- One element of the `weekly_data` list built by `weekly_chart_data`
(`views.py` lines 1033-1040). -/
structure WeekBucket where
  week_start : ℤ
  open_price : ℚ
  close_price : ℚ
  high_price : ℚ
  low_price : ℚ
  volume : ℤ
deriving DecidableEq, Repr

/-- The bucket appended for one week's bars `first :: rest`
(`views.py` lines 1033-1040 and 1047-1055): open of the first bar,
close of the last, maximum high, minimum low, summed volume. -/
def mkWeekBucket (ws : ℤ) (first : StockPrice) (rest : List StockPrice) : WeekBucket :=
  { week_start := ws
    open_price := first.open_price
    close_price := (rest.getLast?.getD first).close_price
    high_price := rest.foldl (fun m p => max m p.high_price) first.high_price
    low_price := rest.foldl (fun m p => min m p.low_price) first.low_price
    volume := rest.foldl (fun s p => s + p.volume) first.volume }

/-- Embedding of the grouping loop of `weekly_chart_data` (`views.py`
lines 1019-1055), with state `(remaining prices, current_week_data,
last_week_start)`: on a week change the accumulated bars are flushed
as a bucket (guarded on `current_week_data` being nonempty), and a
final flush emits the last group. -/
def chartLoop : List StockPrice → List StockPrice → Option ℤ → List WeekBucket
  | [], cur, lastWS =>
      match cur with
      | [] => []
      | c :: cs => [mkWeekBucket (lastWS.getD (weekStart c.date)) c cs]
  | price :: rest, cur, lastWS =>
      let ws := weekStart price.date
      let lw := lastWS.getD ws
      if ws = lw then
        chartLoop rest (cur ++ [price]) (some lw)
      else
        (match cur with
         | [] => ([] : List WeekBucket)
         | c :: cs => [mkWeekBucket lw c cs]) ++ chartLoop rest [price] (some ws)

/-- The full aggregation of `weekly_chart_data` over the ordered price
rows of one instrument. -/
def weeklyChartBuckets (prices : List StockPrice) : List WeekBucket :=
  chartLoop prices [] none

/-- Declarative restatement of the spec: group the bars into maximal
consecutive runs sharing a Monday-anchored week start, and aggregate
each run with `mkWeekBucket`. -/
def weeklyBucketsSpec (l : List StockPrice) : List WeekBucket :=
  match l with
  | [] => []
  | p :: rest =>
      mkWeekBucket (weekStart p.date) p
          (rest.takeWhile fun q => weekStart q.date = weekStart p.date)
        :: weeklyBucketsSpec (rest.dropWhile fun q => weekStart q.date = weekStart p.date)
termination_by l.length
decreasing_by
  exact Nat.lt_succ_of_le (List.Sublist.length_le (List.dropWhile_sublist _))

end StockAnalyser

namespace StockAnalyser

/-- C7: the fast fetcher's error classification returns retriable exactly
when the error text contains one of the literal substrings from
`RETRIABLE_ERRORS`; "API rate limit hit" is retriable, "Invalid symbol:
ZZZZ" is not, and an absent or empty error is not retriable. -/
theorem retriable_error_classification :
    (∀ e : String,
      is_retriable_error (some e) = RETRIABLE_ERRORS.any (fun p => strIn p e))
    ∧ is_retriable_error none = false
    ∧ is_retriable_error (some "") = false
    ∧ is_retriable_error (some "API rate limit hit") = true
    ∧ is_retriable_error (some "Invalid symbol: ZZZZ") = false := by
  refine ⟨?_, rfl, by decide, by decide, by decide⟩
  intro e
  by_cases he : e = ""
  · subst he; decide
  · simp [is_retriable_error, he]

/-- C5: for a performance record with start close `s ≠ 0` and end close
`e`, `price_change = round2 (e - s)`, `percent_change =
round2 ((e - s)/s * 100)`, start/end prices are stored rounded to two
decimals; with `s = 0` no record is produced. -/
theorem performance_record_arithmetic (stock : Stock) (p : String)
    (sb eb : StockPrice) (src : String) :
    (sb.close_price ≠ 0 →
      ∃ r, createPerformanceRecord stock p sb eb src = some r
        ∧ r.price_change = round2 (eb.close_price - sb.close_price)
        ∧ r.percent_change = round2 ((eb.close_price - sb.close_price) / sb.close_price * 100)
        ∧ r.start_price = round2 sb.close_price
        ∧ r.end_price = round2 eb.close_price
        ∧ r.symbol = stock.symbol ∧ r.period = p ∧ r.data_source = src)
    ∧ (sb.close_price = 0 → createPerformanceRecord stock p sb eb src = none) := by
  constructor
  · intro hs
    refine ⟨{ symbol := stock.symbol
              name := stock.name
              period := p
              start_price := round2 sb.close_price
              end_price := round2 eb.close_price
              price_change := round2 (eb.close_price - sb.close_price)
              percent_change := round2 ((eb.close_price - sb.close_price) / sb.close_price * 100)
              start_date := sb.date
              end_date := eb.date
              data_source := src }, ?_, rfl, rfl, rfl, rfl, rfl, rfl, rfl⟩
    simp [createPerformanceRecord, hs]
  · intro hs
    simp [createPerformanceRecord, hs]

/-- Witness for C5 at the spec's own example: start close 100 on one
date, end close 110, giving price change 10.00 and percent change
10.00. -/
theorem performance_record_arithmetic_witness :
    ((⟨0, 1, 1, 1, 100, 0⟩ : StockPrice).close_price ≠ 0)
    ∧ (∃ r, createPerformanceRecord ⟨"AAPL", "Apple", []⟩ "6M"
          ⟨0, 1, 1, 1, 100, 0⟩ ⟨180, 1, 1, 1, 110, 0⟩ "weekly" = some r
        ∧ r.price_change = round2 ((⟨180, 1, 1, 1, 110, 0⟩ : StockPrice).close_price
            - (⟨0, 1, 1, 1, 100, 0⟩ : StockPrice).close_price)
        ∧ r.percent_change = round2 (((⟨180, 1, 1, 1, 110, 0⟩ : StockPrice).close_price
            - (⟨0, 1, 1, 1, 100, 0⟩ : StockPrice).close_price)
            / (⟨0, 1, 1, 1, 100, 0⟩ : StockPrice).close_price * 100)
        ∧ r.start_price = round2 (⟨0, 1, 1, 1, 100, 0⟩ : StockPrice).close_price
        ∧ r.end_price = round2 (⟨180, 1, 1, 1, 110, 0⟩ : StockPrice).close_price
        ∧ r.symbol = "AAPL" ∧ r.period = "6M" ∧ r.data_source = "weekly") :=
  ⟨by decide,
   (performance_record_arithmetic ⟨"AAPL", "Apple", []⟩ "6M"
      ⟨0, 1, 1, 1, 100, 0⟩ ⟨180, 1, 1, 1, 110, 0⟩ "weekly").1 (by decide)⟩

/-- C1 (counterexample): the legacy weekly fetcher stores the vendor's
raw open unscaled.  For a bar with open 10, raw close 100 and adjusted
close 50 the claim demands stored open `10 × (50/100) = 5`, but the
code stores 10. -/
theorem adjustment_ratio_claim_counterexample :
    ∃ p, weeklyFetchParseBar 0 ⟨10, 20, 5, 100, some 50, some 1000, none⟩ = some p
      ∧ p.close_price = 50
      ∧ p.open_price = 10
      ∧ ¬ p.open_price = 10 * ((50 : ℚ) / 100) := by
  refine ⟨_, rfl, rfl, rfl, by norm_num [weeklyFetchParseBar]⟩

/-- C1 (amended): the legacy daily fetcher and the fast fetcher's
weekly/daily paths scale open/high/low by `adjusted_close / raw_close`
(exactly 1 when the raw close is zero) and store the adjusted close;
the legacy weekly fetcher stores the vendor's open/high/low unscaled
with the adjusted close. -/
theorem adjustment_ratio_amended (d : ℤ) (b : VendorBar) (a : ℚ) (v : ℤ)
    (ha : b.adjusted_close = some a) (hv : b.volume6 = some v) :
    (b.raw_close ≠ 0 →
      dailyFetchParseBar d b = some ⟨d, b.open_price * (a / b.raw_close),
        b.high_price * (a / b.raw_close), b.low_price * (a / b.raw_close), a, v⟩
      ∧ fastAdjustedParseBar d b = some ⟨d, b.open_price * (a / b.raw_close),
        b.high_price * (a / b.raw_close), b.low_price * (a / b.raw_close), a, v⟩)
    ∧ (b.raw_close = 0 →
      dailyFetchParseBar d b = some ⟨d, b.open_price * 1,
        b.high_price * 1, b.low_price * 1, a, v⟩
      ∧ fastAdjustedParseBar d b = some ⟨d, b.open_price * 1,
        b.high_price * 1, b.low_price * 1, a, v⟩)
    ∧ weeklyFetchParseBar d b
      = some ⟨d, b.open_price, b.high_price, b.low_price, a, v⟩ := by
  refine ⟨fun hz => ⟨?_, ?_⟩, fun hz => ⟨?_, ?_⟩, ?_⟩ <;>
    simp [dailyFetchParseBar, fastAdjustedParseBar, weeklyFetchParseBar, ha, hv, *]

/-- Witness for the amended C1 at a concrete bar with raw close 100,
adjusted close 50, volume 1000. -/
theorem adjustment_ratio_amended_witness :
    ((⟨10, 20, 5, 100, some 50, some 1000, none⟩ : VendorBar).raw_close ≠ 0
      → dailyFetchParseBar 7 ⟨10, 20, 5, 100, some 50, some 1000, none⟩
          = some ⟨7, 10 * ((50 : ℚ) / 100), 20 * ((50 : ℚ) / 100), 5 * ((50 : ℚ) / 100), 50, 1000⟩
        ∧ fastAdjustedParseBar 7 ⟨10, 20, 5, 100, some 50, some 1000, none⟩
          = some ⟨7, 10 * ((50 : ℚ) / 100), 20 * ((50 : ℚ) / 100), 5 * ((50 : ℚ) / 100), 50, 1000⟩)
    ∧ ((⟨10, 20, 5, 100, some 50, some 1000, none⟩ : VendorBar).raw_close = 0
      → dailyFetchParseBar 7 ⟨10, 20, 5, 100, some 50, some 1000, none⟩
          = some ⟨7, 10 * 1, 20 * 1, 5 * 1, 50, 1000⟩
        ∧ fastAdjustedParseBar 7 ⟨10, 20, 5, 100, some 50, some 1000, none⟩
          = some ⟨7, 10 * 1, 20 * 1, 5 * 1, 50, 1000⟩)
    ∧ weeklyFetchParseBar 7 ⟨10, 20, 5, 100, some 50, some 1000, none⟩
      = some ⟨7, 10, 20, 5, 50, 1000⟩ := by
  have h := adjustment_ratio_amended 7 ⟨10, 20, 5, 100, some 50, some 1000, none⟩
    50 1000 rfl rfl
  exact ⟨fun hz =>
      ⟨by rw [(h.1 hz).1], by rw [(h.1 hz).2]⟩,
    fun hz => absurd hz (by decide), h.2.2⟩

/-- C3 (code evaluated at the failing input): the legacy daily fetcher
stores a bar dated 1000 days before today even though the command's
own comment says only the last 90 days are retained — the
`ninety_days_ago` cutoff computed on line 99 is never applied. -/
theorem daily_retention_failing_input :
    (19000 : ℤ) < 20000 - 90
    ∧ ∃ p, p ∈ dailyFetchStoredBars 20000 [(19000, ⟨10, 12, 9, 11, some 11, some 500, none⟩)]
        ∧ p.date = 19000 := by
  refine ⟨by norm_num, ⟨19000, 10, 12, 9, 11, 500⟩, ?_, rfl⟩
  norm_num [dailyFetchStoredBars, dailyFetchParseBar]

/-- C6: an existing weekly instrument updated less than one hour ago is
skipped when `force` is unset — no vendor call, price rows unchanged —
while `force = true` always reaches the vendor call. -/
theorem weekly_freshness_skip (elapsed : ℚ) (stored fetched : List StockPrice) :
    (elapsed < 3600 →
      weeklyProcessSymbol false false elapsed stored fetched
        = { vendorCalled := false, prices := stored })
    ∧ (weeklyProcessSymbol true false elapsed stored fetched).vendorCalled = true := by
  constructor
  · intro h
    simp [weeklyProcessSymbol, weeklyFreshnessGate, h]
  · simp [weeklyProcessSymbol, weeklyFreshnessGate]

/-- Witness for C6 at an instrument updated 30 minutes (1800 s) ago. -/
theorem weekly_freshness_skip_witness :
    ((1800 : ℚ) < 3600 →
      weeklyProcessSymbol false false 1800 [] [⟨0, 1, 1, 1, 1, 1⟩]
        = { vendorCalled := false, prices := [] })
    ∧ (weeklyProcessSymbol true false 1800 [] [⟨0, 1, 1, 1, 1, 1⟩]).vendorCalled = true :=
  weekly_freshness_skip 1800 [] [⟨0, 1, 1, 1, 1, 1⟩]

/-- Helper for C8: running the chart loop with a nonempty current week
accumulated under week start `w` emits that week's bucket extended by
the maximal further run of `w`-week bars, then continues as the
declarative grouping. -/
theorem chartLoop_go (l : List StockPrice) (c : StockPrice) (cs : List StockPrice) (w : ℤ) :
    chartLoop l (c :: cs) (some w)
      = mkWeekBucket w c (cs ++ l.takeWhile fun q => weekStart q.date = w)
        :: weeklyBucketsSpec (l.dropWhile fun q => weekStart q.date = w) := by
  induction l generalizing c cs w with
  | nil => simp [chartLoop, weeklyBucketsSpec]
  | cons p rest ih =>
      by_cases h : weekStart p.date = w
      · have hstep : chartLoop (p :: rest) (c :: cs) (some w)
            = chartLoop rest (c :: (cs ++ [p])) (some w) := by
          simp [chartLoop, h]
        rw [hstep, ih]
        simp [h, List.append_assoc]
      · have hstep : chartLoop (p :: rest) (c :: cs) (some w)
            = mkWeekBucket w c cs :: chartLoop rest [p] (some (weekStart p.date)) := by
          simp [chartLoop, h]
        rw [hstep, ih]
        simp [weeklyBucketsSpec, h]

/-- C8: the weekly-chart endpoint's grouping loop coincides with the
declarative Monday-anchored weekly grouping (per consecutive week:
open of the first bar, close of the last, max high, min low, summed
volume), and reproduces the spec's Mon-Fri example (opens
10,12,11,13,14, max high 15, min low 9, volume 100 each: one bucket
with open 10, close 14, high 15, low 9, volume 500). -/
theorem weekly_chart_aggregation :
    (∀ prices : List StockPrice, weeklyChartBuckets prices = weeklyBucketsSpec prices)
    ∧ weeklyChartBuckets
        [⟨0, 10, 11, 10, 11, 100⟩, ⟨1, 12, 13, 10, 12, 100⟩, ⟨2, 11, 12, 9, 11, 100⟩,
         ⟨3, 13, 15, 11, 13, 100⟩, ⟨4, 14, 15, 12, 14, 100⟩]
      = [{ week_start := 0, open_price := 10, close_price := 14,
           high_price := 15, low_price := 9, volume := 500 }] := by
  constructor
  · intro prices
    cases prices with
    | nil => simp [weeklyChartBuckets, chartLoop, weeklyBucketsSpec]
    | cons p rest =>
        have hstep : weeklyChartBuckets (p :: rest)
            = chartLoop rest [p] (some (weekStart p.date)) := by
          simp [weeklyChartBuckets, chartLoop]
        rw [hstep, chartLoop_go]
        simp [weeklyBucketsSpec]
  · decide

/-- Helper: `windowCount` distributes over list append. -/
theorem windowCount_append (l1 l2 : List ℚ) (a b : ℚ) :
    windowCount (l1 ++ l2) a b = windowCount l1 a b + windowCount l2 a b := by
  simp [windowCount, List.filter_append]

/-- Helper: a window never counts more timestamps than the list holds. -/
theorem windowCount_le_length (l : List ℚ) (a b : ℚ) :
    windowCount l a b ≤ l.length :=
  List.length_filter_le _ l

/-- Helper: a list of timestamps strictly below the window's lower edge
contributes nothing to the window. -/
theorem windowCount_eq_zero {l : List ℚ} {a b : ℚ} (h : ∀ x ∈ l, x < a) :
    windowCount l a b = 0 := by
  induction l with
  | nil => rfl
  | cons x t ih =>
      have hx : ¬(a ≤ x ∧ x ≤ b) := fun hc => absurd hc.1 (not_le.mpr (h x (by simp)))
      have ht : windowCount t a b = 0 := ih fun y hy => h y (by simp [hy])
      simpa [windowCount, List.filter_cons, hx] using ht

/-- Helper for C4: one admission check preserves the limiter invariant,
re-indexed to the check time. -/
theorem acquireStep_inv (qpm qps : ℕ) (M now : ℚ) (A : List ℚ)
    (st : RateLimiterState) (hInv : LimiterInv qpm qps M A st) (hM : M ≤ now) :
    LimiterInv qpm qps now
      (A ++ (if (acquireStep qpm qps st now).2 then [now] else []))
      (acquireStep qpm qps st now).1 := by
  obtain ⟨⟨d60, hA60, hd60⟩, ⟨d1, hA1, hd1⟩, hle, hw60, hw1⟩ := hInv
  have hstep : acquireStep qpm qps st now
      = if (st.request_times.dropWhile (fun t => t < now - 60)).length < qpm
            ∧ (st.second_requests.dropWhile (fun t => t < now - 1)).length < qps then
          (⟨st.request_times.dropWhile (fun t => t < now - 60) ++ [now],
            st.second_requests.dropWhile (fun t => t < now - 1) ++ [now]⟩, true)
        else
          (⟨st.request_times.dropWhile (fun t => t < now - 60),
            st.second_requests.dropWhile (fun t => t < now - 1)⟩, false) := rfl
  have h60 : A = (d60 ++ st.request_times.takeWhile (fun t => t < now - 60))
      ++ st.request_times.dropWhile (fun t => t < now - 60) := by
    rw [List.append_assoc, List.takeWhile_append_dropWhile, hA60]
  have hd60' : ∀ x ∈ d60 ++ st.request_times.takeWhile (fun t => t < now - 60),
      x < now - 60 := by
    intro x hx
    rcases List.mem_append.1 hx with h | h
    · have := hd60 x h; linarith
    · have := List.mem_takeWhile_imp h
      simpa using this
  have h1 : A = (d1 ++ st.second_requests.takeWhile (fun t => t < now - 1))
      ++ st.second_requests.dropWhile (fun t => t < now - 1) := by
    rw [List.append_assoc, List.takeWhile_append_dropWhile, hA1]
  have hd1' : ∀ x ∈ d1 ++ st.second_requests.takeWhile (fun t => t < now - 1),
      x < now - 1 := by
    intro x hx
    rcases List.mem_append.1 hx with h | h
    · have := hd1 x h; linarith
    · have := List.mem_takeWhile_imp h
      simpa using this
  by_cases hadm : (st.request_times.dropWhile (fun t => t < now - 60)).length < qpm
      ∧ (st.second_requests.dropWhile (fun t => t < now - 1)).length < qps
  · have hsnd : (acquireStep qpm qps st now).2 = true := by rw [hstep, if_pos hadm]
    have hfst : (acquireStep qpm qps st now).1
        = ⟨st.request_times.dropWhile (fun t => t < now - 60) ++ [now],
           st.second_requests.dropWhile (fun t => t < now - 1) ++ [now]⟩ := by
      rw [hstep, if_pos hadm]
    have hgoal : (A ++ (if (acquireStep qpm qps st now).2 then [now] else []))
        = A ++ [now] := by
      rw [hsnd]; simp
    rw [hgoal, hfst]
    refine ⟨⟨d60 ++ st.request_times.takeWhile (fun t => t < now - 60), ?_, hd60'⟩,
            ⟨d1 ++ st.second_requests.takeWhile (fun t => t < now - 1), ?_, hd1'⟩,
            ?_, ?_, ?_⟩
    · simp only [h60, List.append_assoc]
    · simp only [h1, List.append_assoc]
    · intro x hx
      rcases List.mem_append.1 hx with h | h
      · exact le_trans (hle x h) hM
      · have hx' : x = now := by simpa using h
        exact le_of_eq hx'
    · intro t
      rw [windowCount_append]
      by_cases hin : t ≤ now ∧ now ≤ t + 60
      · have hA : windowCount A t (t + 60)
            ≤ (st.request_times.dropWhile (fun t => t < now - 60)).length := by
          rw [h60, windowCount_append,
            windowCount_eq_zero (fun x hx => lt_of_lt_of_le (hd60' x hx) (by linarith))]
          simpa using windowCount_le_length _ t (t + 60)
        have hone : windowCount [now] t (t + 60) ≤ 1 := windowCount_le_length _ _ _
        omega
      · have : windowCount [now] t (t + 60) = 0 := by
          simp [windowCount, List.filter_cons, hin]
        rw [this]
        simpa using hw60 t
    · intro t
      rw [windowCount_append]
      by_cases hin : t ≤ now ∧ now ≤ t + 1
      · have hA : windowCount A t (t + 1)
            ≤ (st.second_requests.dropWhile (fun t => t < now - 1)).length := by
          rw [h1, windowCount_append,
            windowCount_eq_zero (fun x hx => lt_of_lt_of_le (hd1' x hx) (by linarith))]
          simpa using windowCount_le_length _ t (t + 1)
        have hone : windowCount [now] t (t + 1) ≤ 1 := windowCount_le_length _ _ _
        omega
      · have : windowCount [now] t (t + 1) = 0 := by
          simp [windowCount, List.filter_cons, hin]
        rw [this]
        simpa using hw1 t
  · have hsnd : (acquireStep qpm qps st now).2 = false := by rw [hstep, if_neg hadm]
    have hfst : (acquireStep qpm qps st now).1
        = ⟨st.request_times.dropWhile (fun t => t < now - 60),
           st.second_requests.dropWhile (fun t => t < now - 1)⟩ := by
      rw [hstep, if_neg hadm]
    have hgoal : (A ++ (if (acquireStep qpm qps st now).2 then [now] else [])) = A := by
      rw [hsnd]; simp
    rw [hgoal, hfst]
    refine ⟨⟨d60 ++ st.request_times.takeWhile (fun t => t < now - 60), h60, hd60'⟩,
            ⟨d1 ++ st.second_requests.takeWhile (fun t => t < now - 1), h1, hd1'⟩,
            ?_, ?_, ?_⟩
    · intro x hx
      exact le_trans (hle x hx) hM
    · exact hw60
    · exact hw1

/-- Helper for C4: running any time-ordered sequence of checks from an
invariant-satisfying state keeps every rolling window within its
bound. -/
theorem runAdmitted_inv (qpm qps : ℕ) (polls : List ℚ) (M : ℚ) (A : List ℚ)
    (st : RateLimiterState) (hInv : LimiterInv qpm qps M A st)
    (hchain : List.Chain (· ≤ ·) M polls) (t : ℚ) :
    windowCount (A ++ runAdmitted qpm qps st polls) t (t + 60) ≤ qpm
    ∧ windowCount (A ++ runAdmitted qpm qps st polls) t (t + 1) ≤ qps := by
  induction polls generalizing M A st with
  | nil => simpa [runAdmitted] using ⟨hInv.2.2.2.1 t, hInv.2.2.2.2 t⟩
  | cons now rest ih =>
      rcases List.chain_cons.1 hchain with ⟨hM, hrest⟩
      have hstep := acquireStep_inv qpm qps M now A st hInv hM
      have hrec := ih now _ _ hstep hrest
      have hlist : A ++ runAdmitted qpm qps st (now :: rest)
          = (A ++ (if (acquireStep qpm qps st now).2 then [now] else []))
            ++ runAdmitted qpm qps (acquireStep qpm qps st now).1 rest := by
        simp [runAdmitted, List.append_assoc]
      rw [hlist]; exact hrec

/-- C4: over any serialized, time-ordered sequence of admission checks
starting from a fresh limiter, no closed 1-second window holds more
than `qps` admitted timestamps and no closed 60-second window more
than `qpm`; moreover a check admits exactly when both front-pruned
queue lengths are below their limits, and on admission the current
time is appended to both queues. -/
theorem rate_limiter_admission_bound (qpm qps : ℕ) (polls : List ℚ)
    (hsorted : polls.Chain' (· ≤ ·)) :
    ((∀ t, windowCount (runAdmitted qpm qps rateLimiterInit polls) t (t + 1) ≤ qps)
      ∧ (∀ t, windowCount (runAdmitted qpm qps rateLimiterInit polls) t (t + 60) ≤ qpm))
    ∧ (∀ st now, ((acquireStep qpm qps st now).2 = true
        ↔ (st.request_times.dropWhile (fun x => x < now - 60)).length < qpm
          ∧ (st.second_requests.dropWhile (fun x => x < now - 1)).length < qps))
    ∧ (∀ st now, (acquireStep qpm qps st now).2 = true →
        (acquireStep qpm qps st now).1
          = ⟨st.request_times.dropWhile (fun x => x < now - 60) ++ [now],
             st.second_requests.dropWhile (fun x => x < now - 1) ++ [now]⟩) := by
  have hstepchar : ∀ (st : RateLimiterState) (now : ℚ),
      acquireStep qpm qps st now
        = if (st.request_times.dropWhile (fun x => x < now - 60)).length < qpm
              ∧ (st.second_requests.dropWhile (fun x => x < now - 1)).length < qps then
            (⟨st.request_times.dropWhile (fun x => x < now - 60) ++ [now],
              st.second_requests.dropWhile (fun x => x < now - 1) ++ [now]⟩, true)
          else
            (⟨st.request_times.dropWhile (fun x => x < now - 60),
              st.second_requests.dropWhile (fun x => x < now - 1)⟩, false) :=
    fun st now => rfl
  refine ⟨?_, ?_, ?_⟩
  · have hinit : ∀ M : ℚ, LimiterInv qpm qps M [] rateLimiterInit := by
      intro M
      exact ⟨⟨[], rfl, by simp⟩, ⟨[], rfl, by simp⟩, by simp,
        fun t => by simp [windowCount], fun t => by simp [windowCount]⟩
    cases polls with
    | nil =>
        constructor <;> intro t <;> simp [runAdmitted, windowCount]
    | cons p rest =>
        have hchain : List.Chain (· ≤ ·) p (p :: rest) :=
          List.Chain.cons (le_refl p) hsorted
        constructor <;> intro t
        · simpa using (runAdmitted_inv qpm qps (p :: rest) p [] rateLimiterInit
            (hinit p) hchain t).2
        · simpa using (runAdmitted_inv qpm qps (p :: rest) p [] rateLimiterInit
            (hinit p) hchain t).1
  · intro st now
    rw [hstepchar st now]
    by_cases hadm : (st.request_times.dropWhile (fun x => x < now - 60)).length < qpm
        ∧ (st.second_requests.dropWhile (fun x => x < now - 1)).length < qps
    · simpa [if_pos hadm] using hadm
    · simpa [if_neg hadm] using hadm
  · intro st now h
    rw [hstepchar st now] at h ⊢
    by_cases hadm : (st.request_times.dropWhile (fun x => x < now - 60)).length < qpm
        ∧ (st.second_requests.dropWhile (fun x => x < now - 1)).length < qps
    · rw [if_pos hadm]
    · rw [if_neg hadm] at h; simp at h

/-- Witness for C4: with qpm 70 and qps 4, five simultaneous checks at
time 0 admit exactly four timestamps, and the 1-second window at 0
stays within the bound. -/
theorem rate_limiter_admission_bound_witness :
    runAdmitted 70 4 rateLimiterInit [0, 0, 0, 0, 0] = [0, 0, 0, 0]
    ∧ windowCount (runAdmitted 70 4 rateLimiterInit [0, 0, 0, 0, 0]) 0 (0 + 1) ≤ 4 :=
  ⟨by norm_num [runAdmitted, acquireStep, rateLimiterInit],
   (rate_limiter_admission_bound 70 4 [0, 0, 0, 0, 0]
      (by norm_num [List.chain'_cons, List.chain'_singleton])).1.1 0⟩

/-- C10 (counterexample): when the two most recent bars both have close
0 (equal closes), the handler does not report a null change — line 256
raises an unhandled `ZeroDivisionError`, modelled as `.error ()`. -/
theorem summary_zero_change_counterexample :
    summaryEntryFor ⟨"X", "X", []⟩ [⟨1, 0, 0, 0, 0, 0⟩, ⟨0, 0, 0, 0, 0, 0⟩]
      = .error () := by
  rfl

/-- C10 (amended): for two most recent bars with equal and nonzero
closes the summary entry reports `change` and `change_percent` as null
— the same output as when only the latest bar exists — because the
rounding is applied only to a truthy change; when the previous close
is zero the handler instead raises `ZeroDivisionError`. -/
theorem summary_zero_change_null (stock : Stock) (p1 p2 : StockPrice)
    (heq : p1.close_price = p2.close_price) (hnz : p2.close_price ≠ 0) :
    summaryEntryFor stock [p1, p2]
      = .ok (some { symbol := stock.symbol
                    name := stock.name
                    latest_date := p1.date
                    close_price := p1.close_price
                    change := none
                    change_percent := none })
    ∧ summaryEntryFor stock [p1, p2] = summaryEntryFor stock [p1] := by
  have hzero : p1.close_price - p2.close_price = 0 := by rw [heq]; ring
  constructor
  · simp [summaryEntryFor, hnz, hzero]
  · simp [summaryEntryFor, hnz, hzero]

/-- Helper for C2: a produced performance record carries the stock's
symbol and the pass's period name. -/
theorem createPerformanceRecord_key (stock : Stock) (p : String)
    (sb eb : StockPrice) (src : String) (r : StockPerformance)
    (h : createPerformanceRecord stock p sb eb src = some r) :
    r.symbol = stock.symbol ∧ r.period = p := by
  by_cases hz : sb.close_price = 0
  · simp [createPerformanceRecord, hz] at h
  · simp [createPerformanceRecord, hz] at h
    rw [← h]
    exact ⟨rfl, rfl⟩

/-- Helper for C2: key fields of a daily-pass record. -/
theorem calcStockPerformanceDaily_key (stock : Stock) (p : String) (d : ℤ)
    (r : StockPerformance) (h : calcStockPerformanceDaily stock p d = some r) :
    r.symbol = stock.symbol ∧ r.period = p := by
  unfold calcStockPerformanceDaily at h
  split at h
  · split at h
    · exact absurd h (by simp)
    · exact createPerformanceRecord_key _ _ _ _ _ _ h
  · split at h
    · split at h
      · exact absurd h (by simp)
      · exact createPerformanceRecord_key _ _ _ _ _ _ h
    · exact absurd h (by simp)

/-- Helper for C2: key fields of a weekly-pass record. -/
theorem calcStockPerformanceWeekly_key (stock : Stock) (p : String) (d : ℤ)
    (r : StockPerformance) (h : calcStockPerformanceWeekly stock p d = some r) :
    r.symbol = stock.symbol ∧ r.period = p := by
  unfold calcStockPerformanceWeekly at h
  split at h
  · split at h
    · exact absurd h (by simp)
    · exact createPerformanceRecord_key _ _ _ _ _ _ h
  · exact absurd h (by simp)

/-- Helper for C2: symbols of the records produced by a per-stock pass
form a sublist of the processed stocks' symbols. -/
theorem filterMap_symbols_sublist (f : Stock → Option StockPerformance)
    (hf : ∀ s r, f s = some r → r.symbol = s.symbol) (l : List Stock) :
    ((l.filterMap f).map StockPerformance.symbol).Sublist (l.map Stock.symbol) := by
  induction l with
  | nil => simp
  | cons a t ih =>
      cases hfa : f a with
      | none =>
          simp only [List.filterMap_cons, hfa, List.map_cons]
          exact ih.cons _
      | some r =>
          simp only [List.filterMap_cons, hfa, List.map_cons]
          rw [hf a r hfa]
          exact ih.cons₂ _

/-- Helper for C2: every record of the daily pass carries the pass's
period. -/
theorem computeDailyPerformance_period (tracked : List String) (ds : List Stock)
    (p : String) (d : ℤ) :
    ∀ r ∈ computeDailyPerformance tracked ds p d, r.period = p := by
  intro r hr
  unfold computeDailyPerformance at hr
  split at hr
  · simp at hr
  · obtain ⟨s, _, hcalc⟩ := List.mem_filterMap.1 hr
    exact (calcStockPerformanceDaily_key s p d r hcalc).2

/-- Helper for C2: every record of the weekly pass carries the pass's
period. -/
theorem computeWeeklyPerformance_period (tracked : List String) (ws : List Stock)
    (p : String) (d : ℤ) :
    ∀ r ∈ computeWeeklyPerformance tracked ws p d, r.period = p := by
  intro r hr
  obtain ⟨s, _, hcalc⟩ := List.mem_filterMap.1 hr
  exact (calcStockPerformanceWeekly_key s p d r hcalc).2

/-- Helper for C2: the daily pass has no duplicate symbols when the
daily store has none. -/
theorem computeDailyPerformance_symbols_nodup (tracked : List String)
    (ds : List Stock) (p : String) (d : ℤ)
    (hd : (ds.map Stock.symbol).Nodup) :
    ((computeDailyPerformance tracked ds p d).map StockPerformance.symbol).Nodup := by
  unfold computeDailyPerformance
  split
  · simp
  · refine List.Nodup.sublist ?_ hd
    exact (filterMap_symbols_sublist _
        (fun s r h => (calcStockPerformanceDaily_key s p d r h).1) _).trans
      ((List.filter_sublist _).map _)

/-- Helper for C2: the weekly pass has no duplicate symbols when the
weekly store has none. -/
theorem computeWeeklyPerformance_symbols_nodup (tracked : List String)
    (ws : List Stock) (p : String) (d : ℤ)
    (hw : (ws.map Stock.symbol).Nodup) :
    ((computeWeeklyPerformance tracked ws p d).map StockPerformance.symbol).Nodup := by
  refine List.Nodup.sublist ?_ hw
  exact (filterMap_symbols_sublist _
      (fun s r h => (calcStockPerformanceWeekly_key s p d r h).1) _).trans
    ((List.filter_sublist _).map _)

/-- Helper for C2: a list of records sharing one period and without
duplicate symbols has pairwise-distinct (symbol, period) keys. -/
theorem pass_keys_nodup (p : String) (l : List StockPerformance)
    (hsym : (l.map StockPerformance.symbol).Nodup)
    (hper : ∀ r ∈ l, r.period = p) :
    (l.map fun r => (r.symbol, r.period)).Nodup := by
  have hmap : (l.map fun r => (r.symbol, r.period))
      = (l.map StockPerformance.symbol).map (fun s => (s, p)) := by
    rw [List.map_map]
    exact List.map_congr_left fun r hr => by
      simp [Function.comp, hper r hr]
  rw [hmap]
  exact hsym.map fun a b hab => congrArg Prod.fst hab

/-- Helper for C2: the period component of any key of a period's pass
is that period's name. -/
theorem periodPass_period (tracked : List String) (today jan1 : ℤ) (db : PerfDB)
    (pc : String × PeriodConfig) :
    ∀ r ∈ periodPass tracked today jan1 db pc, r.period = pc.1 := by
  intro r hr
  unfold periodPass at hr
  split at hr
  · exact computeDailyPerformance_period _ _ _ _ r hr
  · exact computeWeeklyPerformance_period _ _ _ _ r hr

/-- Helper for C2: each period's pass yields pairwise-distinct keys. -/
theorem periodPass_keys_nodup (tracked : List String) (today jan1 : ℤ)
    (db : PerfDB) (pc : String × PeriodConfig)
    (hw : (db.weeklyStocks.map Stock.symbol).Nodup)
    (hd : (db.dailyStocks.map Stock.symbol).Nodup) :
    ((periodPass tracked today jan1 db pc).map
      (fun r => (r.symbol, r.period))).Nodup := by
  refine pass_keys_nodup pc.1 _ ?_ (periodPass_period tracked today jan1 db pc)
  unfold periodPass
  split
  · exact computeDailyPerformance_symbols_nodup _ _ _ _ hd
  · exact computeWeeklyPerformance_symbols_nodup _ _ _ _ hw

/-- C2: `compute_all` replaces the `StockPerformance` table atomically:
a failed transaction leaves the stored rows unchanged; on success the
table holds exactly the computed set (no stale rows), its
(symbol, period) keys are pairwise distinct, and every tracked stock
whose per-period calculation succeeds contributes its record. -/
theorem compute_all_atomic_replace (tracked : List String) (today jan1 : ℤ)
    (db : PerfDB)
    (hw : (db.weeklyStocks.map Stock.symbol).Nodup)
    (hd : (db.dailyStocks.map Stock.symbol).Nodup) :
    computeAll tracked today jan1 db false = db
    ∧ (computeAll tracked today jan1 db true).performance
        = computedPerformances tracked today jan1 db
    ∧ ((computedPerformances tracked today jan1 db).map
        (fun r => (r.symbol, r.period))).Nodup
    ∧ (∀ pc ∈ TIME_PERIODS, ∀ stock ∈ db.weeklyStocks, ∀ r,
        pc.2.source = PeriodSource.weekly → stock.symbol ∈ tracked →
        calcStockPerformanceWeekly stock pc.1 (getStartDate today jan1 pc.2) = some r →
        r ∈ computedPerformances tracked today jan1 db)
    ∧ (∀ pc ∈ TIME_PERIODS, ∀ stock ∈ db.dailyStocks, ∀ r,
        pc.2.source = PeriodSource.daily → stock.symbol ∈ tracked →
        calcStockPerformanceDaily stock pc.1 (getStartDate today jan1 pc.2) = some r →
        r ∈ computedPerformances tracked today jan1 db) := by
  refine ⟨by simp [computeAll], by simp [computeAll], ?_, ?_, ?_⟩
  · rw [computedPerformances, List.map_flatMap]
    refine List.nodup_flatMap.2 ⟨?_, ?_⟩
    · intro pc _
      exact periodPass_keys_nodup tracked today jan1 db pc hw hd
    · have hp : TIME_PERIODS.Pairwise
          (fun a b : String × PeriodConfig => a.1 ≠ b.1) := by
        decide
      refine hp.imp ?_
      intro a b hab
      intro key hka hkb
      obtain ⟨ra, hra, hka'⟩ := List.mem_map.1 hka
      obtain ⟨rb, hrb, hkb'⟩ := List.mem_map.1 hkb
      apply hab
      have h1 : ra.period = a.1 := periodPass_period tracked today jan1 db a ra hra
      have h2 : rb.period = b.1 := periodPass_period tracked today jan1 db b rb hrb
      rw [← h1, ← h2]
      exact congrArg Prod.snd (hka'.trans hkb'.symm)
  · intro pc hpc stock hstock r hsrc htr hcalc
    refine List.mem_flatMap.2 ⟨pc, hpc, ?_⟩
    unfold periodPass
    rw [hsrc]
    exact List.mem_filterMap.2
      ⟨stock, List.mem_filter.2 ⟨hstock, by simpa using htr⟩, hcalc⟩
  · intro pc hpc stock hstock r hsrc htr hcalc
    refine List.mem_flatMap.2 ⟨pc, hpc, ?_⟩
    unfold periodPass
    rw [hsrc]
    have hne : db.dailyStocks.isEmpty = false := by
      cases hcase : db.dailyStocks with
      | nil => rw [hcase] at hstock; simp at hstock
      | cons a t => rfl
    have hmem : r ∈ (db.dailyStocks.filter (fun s => s.symbol ∈ tracked)).filterMap
        (fun s => calcStockPerformanceDaily s pc.1 (getStartDate today jan1 pc.2)) :=
      List.mem_filterMap.2
        ⟨stock, List.mem_filter.2 ⟨hstock, by simpa using htr⟩, hcalc⟩
    show r ∈ computeDailyPerformance tracked db.dailyStocks pc.1
        (getStartDate today jan1 pc.2)
    rw [computeDailyPerformance, hne]
    simpa using hmem

/-- Witness for C2 at `perfDBEx`: both store invariants hold and the
computed keys are duplicate-free. -/
theorem compute_all_atomic_replace_witness :
    ((perfDBEx.weeklyStocks.map Stock.symbol).Nodup
      ∧ (perfDBEx.dailyStocks.map Stock.symbol).Nodup)
    ∧ ((computedPerformances ["AAPL"] 10 0 perfDBEx).map
        (fun r => (r.symbol, r.period))).Nodup :=
  ⟨⟨by decide, by decide⟩,
   (compute_all_atomic_replace ["AAPL"] 10 0 perfDBEx
      (by decide) (by decide)).2.2.1⟩

/-- Helper for C9: updating the matching link's payload preserves the
number of links stored for a (user, provider) pair. -/
theorem length_filter_update (l : List SocialAccountRec) (n : ℕ) (prov : String)
    (newUid : Option String) (info : OAuthProfile) :
    ((l.map (fun b => if b.userId = n ∧ b.provider = prov
        then { b with uid := newUid, extra_data := info } else b)).filter
      (fun a => a.userId = n ∧ a.provider = prov)).length
    = (l.filter (fun a => a.userId = n ∧ a.provider = prov)).length := by
  induction l with
  | nil => rfl
  | cons a t ih =>
      by_cases h : a.userId = n ∧ a.provider = prov
      · rw [List.map_cons, if_pos h,
          List.filter_cons_of_pos (by exact decide_eq_true h),
          List.filter_cons_of_pos (by exact decide_eq_true ⟨h.1, h.2⟩),
          List.length_cons, List.length_cons, ih]
      · rw [List.map_cons, if_neg h,
          List.filter_cons_of_neg (by simpa using h),
          List.filter_cons_of_neg (by simpa using h), ih]

/-- Helper for C9: the social-account upsert and token issuance leave
the user table alone and end with exactly one link for the
(user, provider) pair. -/
theorem finishLogin_spec (db : AuthDB) (user : UserRec) (provider : String)
    (info : OAuthProfile)
    (ha : (db.accounts.filter
        (fun a => a.userId = user.id ∧ a.provider = provider)).length ≤ 1) :
    ∃ db', finishLogin db user provider info = .ok (db', mkLoginResponse user)
      ∧ db'.users = db.users
      ∧ (db'.accounts.filter
          (fun a => a.userId = user.id ∧ a.provider = provider)).length = 1 := by
  cases hacc : db.accounts.filter
      (fun a => a.userId = user.id ∧ a.provider = provider) with
  | nil =>
      refine ⟨⟨db.users, db.accounts ++ [⟨user.id, provider,
          (match info.sub with
           | some s => if s = "" then info.id else some s
           | none => info.id), info⟩], db.nextUserId⟩, ?_, rfl, ?_⟩
      · unfold finishLogin
        rw [hacc]
      · rw [List.filter_append, hacc]
        simp
  | cons a tail =>
      cases tail with
      | nil =>
          refine ⟨⟨db.users, db.accounts.map (fun b =>
              if b.userId = user.id ∧ b.provider = provider
              then { b with uid :=
                      (match info.sub with
                       | some s => if s = "" then info.id else some s
                       | none => info.id), extra_data := info }
              else b), db.nextUserId⟩, ?_, rfl, ?_⟩
          · unfold finishLogin
            rw [hacc]
          · rw [length_filter_update, hacc]
            rfl
      | cons b tail2 =>
          exfalso
          rw [hacc] at ha
          simp at ha

/-- C9: a successful OAuth exchange whose profile yields an email ends
with exactly one local user holding that email (created on first
exchange with the profile's first/last name and an unusable password,
reused afterwards), exactly one social-account link for the
(user, provider) pair, and returns the token pair for that user plus
a user object named "first last" trimmed, falling back to the email
when both names are empty. -/
theorem social_login_exchange (db : AuthDB) (tok provider : String)
    (info : OAuthProfile) (em : String)
    (htok : ¬tok = "")
    (hprov : provider = "google" ∨ provider = "microsoft")
    (hem : info.email = some em) (hemne : ¬em = "")
    (hu : (db.users.filter (fun u => u.email = em)).length ≤ 1)
    (haid : ∀ a ∈ db.accounts, a.userId < db.nextUserId)
    (ha : ∀ n : ℕ, (db.accounts.filter
        (fun a => a.userId = n ∧ a.provider = provider)).length ≤ 1) :
    ∃ db' u, social_login db (some tok) provider (some info)
        = .ok (db', mkLoginResponse u)
      ∧ u.email = em
      ∧ (db'.users.filter (fun x => x.email = em)).length = 1
      ∧ (db'.accounts.filter
          (fun a => a.userId = u.id ∧ a.provider = provider)).length = 1
      ∧ (db.users.filter (fun x => x.email = em) = [] →
          db'.users = db.users ++ [u]
          ∧ u = ⟨db.nextUserId, em, em, info.given_name.getD "",
                 info.family_name.getD "", false⟩)
      ∧ (∀ u0, db.users.filter (fun x => x.email = em) = [u0] →
          db'.users = db.users ∧ u = u0)
      ∧ (mkLoginResponse u).tokens = get_tokens_for_user u
      ∧ (mkLoginResponse u).userName
          = (if (u.first_name ++ " " ++ u.last_name).trim = ""
             then u.email else (u.first_name ++ " " ++ u.last_name).trim) := by
  have hsl : social_login db (some tok) provider (some info)
      = (match db.users.filter (fun u => u.email = em) with
         | [] =>
            finishLogin
              ⟨db.users ++ [⟨db.nextUserId, em, em, info.given_name.getD "",
                 info.family_name.getD "", false⟩], db.accounts, db.nextUserId + 1⟩
              ⟨db.nextUserId, em, em, info.given_name.getD "",
                 info.family_name.getD "", false⟩ provider info
         | [u] => finishLogin db u provider info
         | _ => .error (500, "MultipleObjectsReturned")) := by
    have hprov' : (provider = "google" ∨ provider = "microsoft") = True :=
      eq_true hprov
    simp only [social_login, Option.getD_some, hprov', not_true, if_neg htok,
      hem, if_neg hemne, if_false]
  cases hfe : db.users.filter (fun u => u.email = em) with
  | nil =>
      rw [hfe] at hsl
      have hza : (db.accounts.filter
          (fun a => a.userId = db.nextUserId ∧ a.provider = provider)) = [] := by
        refine List.filter_eq_nil_iff.2 ?_
        intro a hamem
        have := haid a hamem
        simp only [decide_eq_true_eq, not_and]
        intro hcontra
        omega
      obtain ⟨db', heq, husers, hacc1⟩ := finishLogin_spec
        ⟨db.users ++ [⟨db.nextUserId, em, em, info.given_name.getD "",
           info.family_name.getD "", false⟩], db.accounts, db.nextUserId + 1⟩
        ⟨db.nextUserId, em, em, info.given_name.getD "",
           info.family_name.getD "", false⟩ provider info
        (by show (db.accounts.filter _).length ≤ 1; rw [hza]; simp)
      have husers2 : db'.users = db.users
          ++ [⟨db.nextUserId, em, em, info.given_name.getD "",
               info.family_name.getD "", false⟩] := husers
      refine ⟨db', _, hsl.trans heq, rfl, ?_, hacc1, fun _ => ⟨husers2, rfl⟩,
        ?_, rfl, rfl⟩
      · rw [husers2, List.filter_append, hfe]
        simp
      · intro u0 h0
        exact absurd h0 (by simp)
  | cons u0 tail =>
      cases tail with
      | nil =>
          rw [hfe] at hsl
          have hu0 : u0.email = em := by
            have hmem : u0 ∈ db.users.filter (fun u => u.email = em) := by
              rw [hfe]; exact List.mem_singleton_self u0
            simpa using (List.mem_filter.1 hmem).2
          obtain ⟨db', heq, husers, hacc1⟩ :=
            finishLogin_spec db u0 provider info (ha u0.id)
          refine ⟨db', u0, hsl.trans heq, hu0, ?_, hacc1, ?_, ?_, rfl, rfl⟩
          · rw [husers, hfe]
            rfl
          · intro hnil
            exact absurd hnil (by simp)
          · intro u1 h1
            exact ⟨husers, (List.cons.inj h1).1⟩
      | cons b tail2 =>
          exfalso
          rw [hfe] at hu
          simp at hu

/-- Witness for C9: exchanging a token against an empty identity store
with profile email a@b.com and names A / B. -/
theorem social_login_exchange_witness :
    ∃ db' u, social_login ⟨[], [], 1⟩ (some "t") "google"
        (some ⟨some "s1", none, some "a@b.com", some "A B", some "A", some "B"⟩)
        = .ok (db', mkLoginResponse u)
      ∧ u.email = "a@b.com"
      ∧ (db'.users.filter (fun x => x.email = "a@b.com")).length = 1
      ∧ (db'.accounts.filter
          (fun a => a.userId = u.id ∧ a.provider = "google")).length = 1
      ∧ (([] : List UserRec).filter (fun x => x.email = "a@b.com") = [] →
          db'.users = [] ++ [u]
          ∧ u = ⟨1, "a@b.com", "a@b.com", "A", "B", false⟩)
      ∧ (∀ u0, ([] : List UserRec).filter (fun x => x.email = "a@b.com") = [u0] →
          db'.users = [] ∧ u = u0)
      ∧ (mkLoginResponse u).tokens = get_tokens_for_user u
      ∧ (mkLoginResponse u).userName
          = (if (u.first_name ++ " " ++ u.last_name).trim = ""
             then u.email else (u.first_name ++ " " ++ u.last_name).trim) :=
  social_login_exchange ⟨[], [], 1⟩ "t" "google"
    ⟨some "s1", none, some "a@b.com", some "A B", some "A", some "B"⟩ "a@b.com"
    (by decide) (Or.inl rfl) rfl (by decide) (by simp) (by simp) (fun n => by simp)

/-- Witness for the amended C10 at two bars both closing at 25. -/
theorem summary_zero_change_null_witness :
    summaryEntryFor ⟨"AAPL", "Apple", []⟩ [⟨5, 1, 1, 1, 25, 10⟩, ⟨4, 1, 1, 1, 25, 10⟩]
      = .ok (some { symbol := "AAPL"
                    name := "Apple"
                    latest_date := 5
                    close_price := 25
                    change := none
                    change_percent := none })
    ∧ summaryEntryFor ⟨"AAPL", "Apple", []⟩ [⟨5, 1, 1, 1, 25, 10⟩, ⟨4, 1, 1, 1, 25, 10⟩]
      = summaryEntryFor ⟨"AAPL", "Apple", []⟩ [⟨5, 1, 1, 1, 25, 10⟩] :=
  summary_zero_change_null ⟨"AAPL", "Apple", []⟩ ⟨5, 1, 1, 1, 25, 10⟩ ⟨4, 1, 1, 1, 25, 10⟩
    rfl (by decide)

end StockAnalyser
